import Mathlib

/-
Verification of the jsondb embedded key-value store.

The store keeps an in-memory mapping from string keys to serialized byte
payloads (json.RawMessage), backed by a single JSON file on disk.  The
serialization codec (sonic / encoding-json) and the filesystem are external
collaborators: the codec is modelled as an abstract structure whose laws hold
of JSON, and the filesystem as an explicit state carrying the backing file's
content and a flag saying whether disk writes succeed.
-/

set_option autoImplicit false

namespace Jsondb

/-- The error classes of the package: ErrNotFound, ErrJSON, ErrSync, and the
fatal open-time errors (file creation/bootstrap-write/decode failures). -/
inductive Err where
  | notFound
  | jsonErr
  | syncErr
  | openErr
  deriving DecidableEq, Repr

/-- Go `type Option int64`. -/
abbrev DBOpt := Int

/-- Go `const OptSync Option = iota`. -/
def OptSync : DBOpt := 0

/-! ### Association-list model of Go's `map[string]json.RawMessage` -/

/-- Lookup `data[key]`. -/
def mapLookup {B : Type} : List (String × B) → String → Option B
  | [], _ => none
  | (k', v) :: rest, k => if k' = k then some v else mapLookup rest k

/-- Map assignment `data[key] = v` (overwrites any existing entry). -/
def mapInsert {B : Type} (m : List (String × B)) (k : String) (v : B) :
    List (String × B) :=
  (k, v) :: m.filter (fun p => p.1 != k)

/-- Go `delete(data, key)` (no-op when the key is absent). -/
def mapErase {B : Type} (m : List (String × B)) (k : String) :
    List (String × B) :=
  m.filter (fun p => p.1 != k)

/-! ### The external codec

`V` is the type of in-process values handed to `Set`/`Get`; `B` is the type of
byte strings (payloads and file contents).  The laws are facts about JSON and
`strings.TrimSpace` that the code relies on. -/

structure Codec (V B : Type) where
  /-- `sonic.Marshal` of a value (may fail on unsupported values). -/
  encode : V → Option B
  /-- `sonic.Unmarshal` of a payload into a `V` destination. -/
  decode : B → Option V
  /-- Whether a payload is valid JSON, i.e. whether `json.Marshal` accepts it
  as a `json.RawMessage`. -/
  valid : B → Bool
  /-- The whitespace normalization `json.Marshal` applies to a raw payload. -/
  compact : B → B
  /-- `json.Marshal` of the whole `map[string]json.RawMessage`. -/
  serMap : List (String × B) → Option B
  /-- `sonic.Unmarshal` of file content into a `map[string]json.RawMessage`. -/
  deserMap : B → Option (List (String × B))
  /-- The two-byte empty-object document `\x7b\x7d`. -/
  emptyDoc : B
  /-- The content of a freshly created (zero-length) file. -/
  emptyContent : B
  /-- `strings.TrimSpace(content) == ""`. -/
  isBlank : B → Bool
  /-- Byte-string concatenation (a write at end-of-file offset appends). -/
  bappend : B → B → B
  encode_decode : ∀ v b, encode v = some b → decode b = some v
  encode_valid : ∀ v b, encode v = some b → valid b = true
  compact_decode : ∀ b, decode (compact b) = decode b
  serMap_isSome : ∀ m, (serMap m).isSome = m.all (fun p => valid p.2)
  serMap_deserMap : ∀ m s, serMap m = some s →
    ∃ m', deserMap s = some m' ∧
      ∀ k, mapLookup m' k = (mapLookup m k).map compact
  serMap_not_blank : ∀ m s, serMap m = some s → isBlank s = false
  deserMap_valid : ∀ s m, deserMap s = some m → ∀ p ∈ m, valid p.2 = true
  deserMap_emptyDoc : deserMap emptyDoc = some []
  deserMap_blank_append : ∀ w s, isBlank w = true →
    deserMap (bappend w s) = deserMap s
  isBlank_emptyContent : isBlank emptyContent = true

/-! ### Filesystem and store state -/

/-- The filesystem as seen by one store: the content of the file at the
store's path (`none` = absent), and whether disk writes succeed. -/
structure FS (B : Type) where
  file : Option B
  writeOk : Bool
  deriving DecidableEq, Repr

/-- The `DB` struct (the mutex is irrelevant to the sequential semantics). -/
structure DB (B : Type) where
  opts : List DBOpt
  path : String
  data : List (String × B)
  deriving DecidableEq, Repr

variable {V B : Type}

/-! ### Operations, translated from src/jsondb.go -/

/-- `Open`: create the file if absent, read it, bootstrap a blank file by
writing the empty-object document at the end-of-file offset, then decode the
in-memory `content` variable into the mapping. -/
def Open (C : Codec V B) (path : String) (opts : List DBOpt) (fs : FS B) :
    Except Err (DB B) × FS B :=
  let content0 := fs.file.getD C.emptyContent
  let fs1 : FS B := { fs with file := some content0 }
  if C.isBlank content0 then
    if fs1.writeOk then
      let fs2 : FS B := { fs1 with file := some (C.bappend content0 C.emptyDoc) }
      match C.deserMap C.emptyDoc with
      | none => (.error .openErr, fs2)
      | some data => (.ok ⟨opts, path, data⟩, fs2)
    else (.error .openErr, fs1)
  else
    match C.deserMap content0 with
    | none => (.error .openErr, fs1)
    | some data => (.ok ⟨opts, path, data⟩, fs1)

/-- `sync`: marshal the whole mapping, then overwrite the backing file. -/
def sync (C : Codec V B) (db : DB B) (fs : FS B) : Except Err Unit × FS B :=
  match C.serMap db.data with
  | none => (.error .jsonErr, fs)
  | some content =>
    if fs.writeOk then (.ok (), { fs with file := some content })
    else (.error .syncErr, fs)

/-- `syncIfNeeded`: sync only when `OptSync` was supplied at open time. -/
def syncIfNeeded (C : Codec V B) (db : DB B) (fs : FS B) :
    Except Err Unit × FS B :=
  if OptSync ∈ db.opts then sync C db fs else (.ok (), fs)

/-- `Save`: explicit flush; the mapping itself is untouched. -/
def Save (C : Codec V B) (db : DB B) (fs : FS B) :
    Except Err Unit × DB B × FS B :=
  let r := sync C db fs
  (r.1, db, r.2)

/-- `Set`: encode the value, store the payload, then auto-sync if needed. -/
def Set (C : Codec V B) (db : DB B) (k : String) (v : V) (fs : FS B) :
    Except Err Unit × DB B × FS B :=
  match C.encode v with
  | none => (.error .jsonErr, db, fs)
  | some raw =>
    let db' : DB B := { db with data := mapInsert db.data k raw }
    let r := syncIfNeeded C db' fs
    (r.1, db', r.2)

/-- `SetRaw`: store a caller-supplied payload without encoding. -/
def SetRaw (C : Codec V B) (db : DB B) (k : String) (raw : B) (fs : FS B) :
    Except Err Unit × DB B × FS B :=
  let db' : DB B := { db with data := mapInsert db.data k raw }
  let r := syncIfNeeded C db' fs
  (r.1, db', r.2)

/-- `Get`: look up the key and decode the payload into the destination.  On
any failure the destination is returned unchanged.  (Partial writes that a
failing decode might leave in the destination are not modelled; no claim
observes the destination after a decode failure.) -/
def Get (C : Codec V B) (db : DB B) (k : String) (dest : V) :
    Except Err Unit × DB B × V :=
  match mapLookup db.data k with
  | none => (.error .notFound, db, dest)
  | some raw =>
    match C.decode raw with
    | none => (.error .jsonErr, db, dest)
    | some v => (.ok (), db, v)

/-- `GetRaw`: look up the key and return the raw payload. -/
def GetRaw (db : DB B) (k : String) : Except Err B × DB B :=
  match mapLookup db.data k with
  | none => (.error .notFound, db)
  | some raw => (.ok raw, db)

/-- `Delete`: remove the key (silent no-op when absent), then auto-sync. -/
def Delete (C : Codec V B) (db : DB B) (k : String) (fs : FS B) :
    Except Err Unit × DB B × FS B :=
  let db' : DB B := { db with data := mapErase db.data k }
  let r := syncIfNeeded C db' fs
  (r.1, db', r.2)

/-- The loop body of `Iter`: the visitor closure's private state is `σ`, its
error result is `Option ε`; the loop breaks on the first `some`. -/
def iterRun {σ ε : Type} (fn : σ → String → B → σ × Option ε) :
    σ → List (String × B) → σ
  | s, [] => s
  | s, (k, v) :: rest =>
    let r := fn s k v
    match r.2 with
    | some _ => r.1
    | none => iterRun fn r.1 rest

/-- `Iter`: run the visitor over the entries; the visitor's error is swallowed
and only the visitor's own state escapes.  The (unchanged) store is returned
to make "the mapping is not modified" statable. -/
def Iter {σ ε : Type} (db : DB B) (fn : σ → String → B → σ × Option ε)
    (s : σ) : σ × DB B :=
  (iterRun fn s db.data, db)

/-! ### Lemmas about the association-list map -/

theorem mapLookup_insert_self {B : Type} (m : List (String × B)) (k : String)
    (v : B) : mapLookup (mapInsert m k v) k = some v := by
  simp [mapInsert, mapLookup]

theorem mapLookup_filter_ne {B : Type} (m : List (String × B)) (k k' : String)
    (h : k' ≠ k) :
    mapLookup (m.filter (fun p => p.1 != k)) k' = mapLookup m k' := by
  induction m with
  | nil => rfl
  | cons p rest ih =>
    by_cases hp : p.1 = k
    · have hb : (p.1 != k) = false := by simp [hp]
      have hne : ¬p.1 = k' := fun he => h (he.symm.trans hp)
      rw [List.filter_cons, hb]
      simp only [Bool.false_eq_true, if_false]
      conv_rhs => rw [mapLookup]
      rw [if_neg hne]
      exact ih
    · have hb : (p.1 != k) = true := by simp [hp]
      simp [List.filter_cons, hb, mapLookup, ih]

theorem mapLookup_insert_ne {B : Type} (m : List (String × B)) (k k' : String)
    (v : B) (h : k' ≠ k) :
    mapLookup (mapInsert m k v) k' = mapLookup m k' := by
  rw [mapInsert, mapLookup, if_neg (fun he => h he.symm)]
  exact mapLookup_filter_ne m k k' h

theorem mapLookup_erase_self {B : Type} (m : List (String × B)) (k : String) :
    mapLookup (mapErase m k) k = none := by
  induction m with
  | nil => rfl
  | cons p rest ih =>
    by_cases hp : p.1 = k
    · have : (p.1 != k) = false := by simp [hp]
      simpa [mapErase, List.filter_cons, this] using ih
    · have : (p.1 != k) = true := by simp [hp]
      simpa [mapErase, List.filter_cons, this, mapLookup, hp] using ih

theorem mapLookup_erase_ne {B : Type} (m : List (String × B)) (k k' : String)
    (h : k' ≠ k) : mapLookup (mapErase m k) k' = mapLookup m k' :=
  mapLookup_filter_ne m k k' h

/-- The codec-validity invariant on a mapping: every stored payload is valid
per the codec (hence the whole mapping is serializable). -/
def mapValid {V B : Type} (C : Codec V B) (m : List (String × B)) : Prop :=
  ∀ p ∈ m, C.valid p.2 = true

theorem serMap_isSome_of_mapValid {V B : Type} (C : Codec V B)
    {m : List (String × B)} (h : mapValid C m) : (C.serMap m).isSome = true := by
  rw [C.serMap_isSome, List.all_eq_true]
  exact fun p hp => h p hp

theorem mapValid_insert {V B : Type} (C : Codec V B) {m : List (String × B)}
    {k : String} {v : B} (hm : mapValid C m) (hv : C.valid v = true) :
    mapValid C (mapInsert m k v) := by
  intro p hp
  rcases List.mem_cons.mp hp with h | h
  · rw [h]; exact hv
  · exact hm p (List.mem_of_mem_filter h)

theorem mapValid_erase {V B : Type} (C : Codec V B) {m : List (String × B)}
    {k : String} (hm : mapValid C m) : mapValid C (mapErase m k) :=
  fun p hp => hm p (List.mem_of_mem_filter hp)

end Jsondb

namespace Jsondb

/-! ### A concrete codec instance

Used to evaluate the development at concrete inputs.  Byte strings are token
lists; `Tok.bad` plays the role of a byte string that is not valid JSON (such
strings exist: the empty byte string is not a valid JSON document), `Tok.ws`
the role of a whitespace byte. -/

inductive Tok where
  | t
  | f
  | bad
  | ws
  | emp
  | key (s : String)
  deriving DecidableEq, Repr

abbrev ToyB := List Tok

def toyEncode (v : Bool) : Option ToyB :=
  some (if v then [Tok.t] else [Tok.f])

def toyDecode : ToyB → Option Bool
  | [Tok.t] => some true
  | [Tok.f] => some false
  | _ => none

def toyValid (b : ToyB) : Bool :=
  b == [Tok.t] || b == [Tok.f]

def toySerEntries : List (String × ToyB) → ToyB
  | [] => []
  | (k, v) :: rest => Tok.key k :: (v ++ toySerEntries rest)

def toySerMap (m : List (String × ToyB)) : Option ToyB :=
  if m.all (fun p => toyValid p.2) then
    if m.isEmpty then some [Tok.emp] else some (toySerEntries m)
  else none

def toyParseEntries : ToyB → Option (List (String × ToyB))
  | [] => some []
  | Tok.key k :: Tok.t :: rest =>
    (toyParseEntries rest).map (fun l => (k, [Tok.t]) :: l)
  | Tok.key k :: Tok.f :: rest =>
    (toyParseEntries rest).map (fun l => (k, [Tok.f]) :: l)
  | _ => none

def toyDeserMap (b : ToyB) : Option (List (String × ToyB)) :=
  let c := b.filter (fun x => x != Tok.ws)
  if c = [] then none
  else if c = [Tok.emp] then some []
  else toyParseEntries c

def toyIsBlank (b : ToyB) : Bool :=
  b.all (fun x => x == Tok.ws)

theorem toyValid_elim {v : ToyB} (h : toyValid v = true) :
    v = [Tok.t] ∨ v = [Tok.f] := by
  simpa [toyValid] using h

theorem toySerEntries_no_ws {m : List (String × ToyB)}
    (h : m.all (fun p => toyValid p.2) = true) :
    ∀ x ∈ toySerEntries m, (x != Tok.ws) = true := by
  induction m with
  | nil => intro x hx; cases hx
  | cons p rest ih =>
    rw [List.all_cons, Bool.and_eq_true] at h
    intro x hx
    rw [toySerEntries] at hx
    rcases List.mem_cons.mp hx with h1 | h1
    · simp [h1]
    · rcases List.mem_append.mp h1 with h2 | h2
      · rcases toyValid_elim h.1 with hv | hv <;> rw [hv] at h2 <;>
          simp_all
      · exact ih h.2 x h2

theorem toyParseEntries_toySerEntries {m : List (String × ToyB)}
    (h : m.all (fun p => toyValid p.2) = true) :
    toyParseEntries (toySerEntries m) = some m := by
  induction m with
  | nil => rfl
  | cons p rest ih =>
    rw [List.all_cons, Bool.and_eq_true] at h
    rcases p with ⟨k, v⟩
    rcases toyValid_elim h.1 with hv | hv <;> subst hv <;>
      simp [toySerEntries, toyParseEntries, ih h.2]

theorem toyParseEntries_valid :
    ∀ c m, toyParseEntries c = some m → ∀ p ∈ m, toyValid p.2 = true := by
  intro c
  induction c using toyParseEntries.induct with
  | case1 =>
    intro m h p hp
    simp [toyParseEntries] at h
    subst h
    cases hp
  | case2 k rest ih =>
    intro m h p hp
    simp [toyParseEntries] at h
    rcases h with ⟨l, hl, rfl⟩
    rcases List.mem_cons.mp hp with h1 | h1
    · rw [h1]; rfl
    · exact ih l hl p h1
  | case3 k rest ih =>
    intro m h p hp
    simp [toyParseEntries] at h
    rcases h with ⟨l, hl, rfl⟩
    rcases List.mem_cons.mp hp with h1 | h1
    · rw [h1]; rfl
    · exact ih l hl p h1
  | case4 c h1 h2 h3 =>
    intro m h
    rw [toyParseEntries] at h
    · cases h
    · exact h1
    · exact h2
    · exact h3

theorem toyEncode_decode : ∀ v b, toyEncode v = some b → toyDecode b = some v := by
  intro v b h
  cases v <;> simp [toyEncode] at h <;> subst h <;> rfl

theorem toyEncode_valid : ∀ v b, toyEncode v = some b → toyValid b = true := by
  intro v b h
  cases v <;> simp [toyEncode] at h <;> subst h <;> rfl

theorem toySerMap_isSome :
    ∀ m, (toySerMap m).isSome = m.all (fun p => toyValid p.2) := by
  intro m
  rw [toySerMap]
  by_cases h : m.all (fun p => toyValid p.2) = true
  · rw [if_pos h, h]
    by_cases hm : m.isEmpty <;> simp [hm]
  · rw [if_neg h]
    rw [Bool.not_eq_true] at h
    rw [h]
    rfl

theorem toySerMap_deserMap : ∀ m s, toySerMap m = some s →
    ∃ m', toyDeserMap s = some m' ∧
      ∀ k, mapLookup m' k = (mapLookup m k).map id := by
  intro m s h
  rw [toySerMap] at h
  by_cases hall : m.all (fun p => toyValid p.2) = true
  · rw [if_pos hall] at h
    cases m with
    | nil =>
      simp at h
      subst h
      refine ⟨[], by rfl, fun k => by simp [mapLookup]⟩
    | cons p rest =>
      rcases p with ⟨pk, pv⟩
      simp [List.isEmpty] at h
      subst h
      refine ⟨(pk, pv) :: rest, ?_, fun k => by simp⟩
      have hfil : (toySerEntries ((pk, pv) :: rest)).filter (fun x => x != Tok.ws)
          = toySerEntries ((pk, pv) :: rest) :=
        List.filter_eq_self.mpr (toySerEntries_no_ws hall)
      have hne1 : toySerEntries ((pk, pv) :: rest) ≠ [] := by
        rw [toySerEntries]; simp
      have hne2 : toySerEntries ((pk, pv) :: rest) ≠ [Tok.emp] := by
        rw [toySerEntries]
        intro hh
        injection hh with h1 _
        exact Tok.noConfusion h1
      simp only [toyDeserMap, hfil, if_neg hne1, if_neg hne2]
      exact toyParseEntries_toySerEntries hall
  · rw [if_neg hall] at h
    cases h

theorem toySerMap_not_blank : ∀ m s, toySerMap m = some s →
    toyIsBlank s = false := by
  intro m s h
  rw [toySerMap] at h
  by_cases hall : m.all (fun p => toyValid p.2) = true
  · rw [if_pos hall] at h
    cases m with
    | nil =>
      simp at h
      subst h
      rfl
    | cons p rest =>
      rcases p with ⟨pk, pv⟩
      simp [List.isEmpty] at h
      subst h
      rw [toySerEntries, toyIsBlank]
      have hk : (Tok.key pk == Tok.ws) = false := by
        rw [beq_eq_false_iff_ne]
        exact fun hh => Tok.noConfusion hh
      simp [hk]
  · rw [if_neg hall] at h
    cases h

theorem toyDeserMap_valid : ∀ s m, toyDeserMap s = some m →
    ∀ p ∈ m, toyValid p.2 = true := by
  intro s m h
  simp only [toyDeserMap] at h
  split at h
  · cases h
  · split at h
    · injection h with h'
      subst h'
      intro p hp
      cases hp
    · exact toyParseEntries_valid _ m h

theorem toyDeserMap_emptyDoc : toyDeserMap [Tok.emp] = some [] := by rfl

theorem toyDeserMap_blank_append : ∀ w s, toyIsBlank w = true →
    toyDeserMap (w ++ s) = toyDeserMap s := by
  intro w s h
  have hw : w.filter (fun x => x != Tok.ws) = [] := by
    rw [List.filter_eq_nil_iff]
    intro a ha
    have := (List.all_eq_true.mp h) a ha
    simp_all
  simp only [toyDeserMap, List.filter_append, hw, List.nil_append]

/-- The concrete codec instance: values are booleans, byte strings are token
lists. -/
def toyCodec : Codec Bool ToyB where
  encode := toyEncode
  decode := toyDecode
  valid := toyValid
  compact := id
  serMap := toySerMap
  deserMap := toyDeserMap
  emptyDoc := [Tok.emp]
  emptyContent := []
  isBlank := toyIsBlank
  bappend := fun a b => a ++ b
  encode_decode := toyEncode_decode
  encode_valid := toyEncode_valid
  compact_decode := fun _ => rfl
  serMap_isSome := toySerMap_isSome
  serMap_deserMap := toySerMap_deserMap
  serMap_not_blank := toySerMap_not_blank
  deserMap_valid := toyDeserMap_valid
  deserMap_emptyDoc := toyDeserMap_emptyDoc
  deserMap_blank_append := toyDeserMap_blank_append
  isBlank_emptyContent := rfl

/-! ### Behaviour lemmas about the operations -/

variable {V B : Type}

/-- Exhaustive description of `sync`: JSON error, successful overwrite, or
sync error, depending on serializability and the disk. -/
theorem sync_cases (C : Codec V B) (db : DB B) (fs : FS B) :
    (C.serMap db.data = none ∧ sync C db fs = (.error .jsonErr, fs))
    ∨ (∃ s, C.serMap db.data = some s ∧ fs.writeOk = true ∧
        sync C db fs = (.ok (), { fs with file := some s }))
    ∨ (∃ s, C.serMap db.data = some s ∧ fs.writeOk = false ∧
        sync C db fs = (.error .syncErr, fs)) := by
  cases hs : C.serMap db.data with
  | none => exact Or.inl ⟨rfl, by simp [sync, hs]⟩
  | some s =>
    cases hw : fs.writeOk with
    | true => exact Or.inr (Or.inl ⟨s, rfl, rfl, by simp [sync, hs, hw]⟩)
    | false => exact Or.inr (Or.inr ⟨s, rfl, rfl, by simp [sync, hs, hw]⟩)

theorem sync_writeOk (C : Codec V B) (db : DB B) (fs : FS B) :
    ((sync C db fs).2).writeOk = fs.writeOk := by
  rcases sync_cases C db fs with ⟨_, h⟩ | ⟨s, _, _, h⟩ | ⟨s, _, _, h⟩ <;> simp [h]

theorem syncIfNeeded_not_mem (C : Codec V B) (db : DB B) (fs : FS B)
    (h : OptSync ∉ db.opts) : syncIfNeeded C db fs = (.ok (), fs) := by
  rw [syncIfNeeded, if_neg h]

theorem syncIfNeeded_mem (C : Codec V B) (db : DB B) (fs : FS B)
    (h : OptSync ∈ db.opts) : syncIfNeeded C db fs = sync C db fs := by
  rw [syncIfNeeded, if_pos h]

theorem syncIfNeeded_writeOk (C : Codec V B) (db : DB B) (fs : FS B) :
    ((syncIfNeeded C db fs).2).writeOk = fs.writeOk := by
  rw [syncIfNeeded]
  split
  · exact sync_writeOk C db fs
  · rfl

/-- When the disk works and the mapping is valid, a conditional sync succeeds
and leaves the disk writable. -/
theorem syncIfNeeded_ok (C : Codec V B) (db : DB B) (fs : FS B)
    (hw : fs.writeOk = true) (hv : mapValid C db.data) :
    (syncIfNeeded C db fs).1 = .ok () := by
  rw [syncIfNeeded]
  split
  · rcases sync_cases C db fs with ⟨hn, h⟩ | ⟨s, _, _, h⟩ | ⟨s, _, hw', h⟩
    · have hs := serMap_isSome_of_mapValid C hv
      rw [hn] at hs
      simp at hs
    · rw [h]
    · rw [hw] at hw'; cases hw'
  · rfl

/-- Unfolding `Set` once the encoder's answer is known. -/
theorem Set_eq (C : Codec V B) (db : DB B) (k : String) (v : V) (fs : FS B)
    (b : B) (henc : C.encode v = some b) :
    Set C db k v fs =
      ((syncIfNeeded C { db with data := mapInsert db.data k b } fs).1,
       { db with data := mapInsert db.data k b },
       (syncIfNeeded C { db with data := mapInsert db.data k b } fs).2) := by
  simp only [Set, henc]

theorem Get_preserves_db (C : Codec V B) (db : DB B) (k : String) (dest : V) :
    (Get C db k dest).2.1 = db := by
  rw [Get]
  split
  · rfl
  · split <;> rfl

theorem GetRaw_preserves_db (db : DB B) (k : String) :
    (GetRaw db k).2 = db := by
  rw [GetRaw]
  cases mapLookup db.data k <;> rfl

/-- `Open` on an existing, non-blank file decodes it. -/
theorem Open_notBlank (C : Codec V B) (path : String) (opts : List DBOpt)
    (s : B) (w : Bool) (m : List (String × B))
    (hb : C.isBlank s = false) (hd : C.deserMap s = some m) :
    Open C path opts ⟨some s, w⟩ = (.ok ⟨opts, path, m⟩, ⟨some s, w⟩) := by
  simp [Open, hb, hd]

/-- `Open` on an existing blank file bootstraps it by appending the
empty-object document. -/
theorem Open_blank (C : Codec V B) (path : String) (opts : List DBOpt)
    (c : B) (hb : C.isBlank c = true) :
    Open C path opts ⟨some c, true⟩ =
      (.ok ⟨opts, path, []⟩, ⟨some (C.bappend c C.emptyDoc), true⟩) := by
  simp [Open, hb, C.deserMap_emptyDoc]

/-- `Open` on an absent file creates it empty and bootstraps it. -/
theorem Open_absent (C : Codec V B) (path : String) (opts : List DBOpt) :
    Open C path opts ⟨none, true⟩ =
      (.ok ⟨opts, path, []⟩,
       ⟨some (C.bappend C.emptyContent C.emptyDoc), true⟩) := by
  simp [Open, C.isBlank_emptyContent, C.deserMap_emptyDoc]

/-- A successful `Open` always produces a mapping obtained from the decoder,
so every payload in it is codec-valid. -/
theorem Open_ok_mapValid (C : Codec V B) {path : String} {opts : List DBOpt}
    {fs : FS B} {db0 : DB B} {fs0 : FS B}
    (h : Open C path opts fs = (.ok db0, fs0)) : mapValid C db0.data := by
  simp only [Open] at h
  by_cases hb : C.isBlank (fs.file.getD C.emptyContent) = true
  · rw [if_pos hb] at h
    by_cases hw : fs.writeOk = true
    · simp only [hw, if_true] at h
      cases hd : C.deserMap C.emptyDoc with
      | none => simp only [hd] at h; simp at h
      | some data =>
        simp only [hd] at h
        rw [Prod.mk.injEq] at h
        obtain ⟨h1, _⟩ := h
        injection h1 with h1
        rw [← h1]
        exact fun p hp => C.deserMap_valid _ _ hd p hp
    · simp only [Bool.not_eq_true] at hw
      simp only [hw, Bool.false_eq_true, if_false] at h
      simp at h
  · rw [if_neg hb] at h
    cases hd : C.deserMap (fs.file.getD C.emptyContent) with
    | none => simp only [hd] at h; simp at h
    | some data =>
      simp only [hd] at h
      rw [Prod.mk.injEq] at h
      obtain ⟨h1, _⟩ := h
      injection h1 with h1
      rw [← h1]
      exact fun p hp => C.deserMap_valid _ _ hd p hp

theorem syncIfNeeded_fail (C : Codec V B) (db : DB B) (fs : FS B)
    (hmem : OptSync ∈ db.opts) (hw : fs.writeOk = false)
    (hs : (C.serMap db.data).isSome = true) :
    syncIfNeeded C db fs = (.error .syncErr, fs) := by
  rw [syncIfNeeded_mem C db fs hmem]
  rcases sync_cases C db fs with ⟨hn, _⟩ | ⟨s, _, hw', _⟩ | ⟨s, _, _, h⟩
  · rw [hn] at hs; simp at hs
  · rw [hw] at hw'; cases hw'
  · exact h

/-- A successful conditional sync under `OptSync` leaves the file holding the
full serialization of the mapping. -/
theorem syncIfNeeded_ok_file (C : Codec V B) (db : DB B) (fs : FS B)
    (hmem : OptSync ∈ db.opts) (hok : (syncIfNeeded C db fs).1 = .ok ()) :
    ∃ s, C.serMap db.data = some s ∧ ((syncIfNeeded C db fs).2).file = some s := by
  rw [syncIfNeeded_mem C db fs hmem] at hok ⊢
  rcases sync_cases C db fs with ⟨_, h⟩ | ⟨s, hs, _, h⟩ | ⟨_, _, _, h⟩
  · rw [h] at hok; simp at hok
  · exact ⟨s, hs, by rw [h]⟩
  · rw [h] at hok; simp at hok

/-! ### Claim C1 -/

/-- Claim C1: for every key `k` and every value `v` encodable by the codec,
`Set k v` followed by `Get k` on the resulting store succeeds and yields the
value `v` back (leaving the store unchanged). -/
theorem claim1_roundtrip (C : Codec V B) (db : DB B) (k : String) (v : V)
    (b : B) (dest : V) (fs : FS B) (henc : C.encode v = some b) :
    Get C (Set C db k v fs).2.1 k dest = (.ok (), (Set C db k v fs).2.1, v) := by
  have hd : ((Set C db k v fs).2.1).data = mapInsert db.data k b := by
    rw [Set_eq C db k v fs b henc]
  have hl : mapLookup ((Set C db k v fs).2.1).data k = some b := by
    rw [hd]; exact mapLookup_insert_self db.data k b
  simp only [Get, hl, C.encode_decode v b henc]

/-- Concrete instantiation of claim C1. -/
theorem claim1_witness :
    toyCodec.encode true = some [Tok.t]
    ∧ Get toyCodec (Set toyCodec ⟨[], "p", []⟩ "k" true ⟨none, true⟩).2.1 "k" false
      = (.ok (), (Set toyCodec ⟨[], "p", []⟩ "k" true ⟨none, true⟩).2.1, true) :=
  ⟨rfl, claim1_roundtrip toyCodec ⟨[], "p", []⟩ "k" true [Tok.t] false
    ⟨none, true⟩ rfl⟩

/-! ### Claim C5 -/

/-- Claim C5: `Save` fails with the JSON-error class exactly when serializing
the whole mapping fails, with the sync-error class exactly when the disk write
fails, and the in-memory mapping is unchanged for every outcome. -/
theorem claim5_save_errors (C : Codec V B) (db : DB B) (fs : FS B) :
    ((Save C db fs).1 = .error .jsonErr ↔ C.serMap db.data = none)
    ∧ ((Save C db fs).1 = .error .syncErr
        ↔ (C.serMap db.data).isSome = true ∧ fs.writeOk = false)
    ∧ (Save C db fs).2.1 = db := by
  rcases sync_cases C db fs with ⟨hn, h⟩ | ⟨s, hs, hw, h⟩ | ⟨s, hs, hw, h⟩
  · simp only [Save, h]
    simp [hn]
  · simp only [Save, h]
    simp [hs, hw]
  · simp only [Save, h]
    simp [hs, hw]

/-- Concrete instantiation of claim C5: a store holding a payload that is not
valid JSON makes `Save` report the JSON error while leaving the mapping put. -/
theorem claim5_witness :
    ((Save toyCodec ⟨[], "p", [("k", [Tok.bad])]⟩ ⟨none, true⟩).1
        = .error .jsonErr
      ↔ toyCodec.serMap [("k", [Tok.bad])] = none)
    ∧ (Save toyCodec ⟨[], "p", [("k", [Tok.bad])]⟩ ⟨none, true⟩).2.1
        = ⟨[], "p", [("k", [Tok.bad])]⟩ :=
  ⟨(claim5_save_errors toyCodec ⟨[], "p", [("k", [Tok.bad])]⟩ ⟨none, true⟩).1,
   (claim5_save_errors toyCodec ⟨[], "p", [("k", [Tok.bad])]⟩ ⟨none, true⟩).2.2⟩

/-! ### Claim C6 -/

/-- Claim C6: for every key absent from the mapping, `Get` fails with the
not-found error leaving the destination untouched, `GetRaw` fails with the
not-found error, and neither call modifies the mapping. -/
theorem claim6_not_found (C : Codec V B) (db : DB B) (k : String) (dest : V)
    (habs : mapLookup db.data k = none) :
    Get C db k dest = (.error .notFound, db, dest)
    ∧ GetRaw db k = (.error .notFound, db) := by
  constructor
  · simp only [Get, habs]
  · simp only [GetRaw, habs]

/-- Concrete instantiation of claim C6. -/
theorem claim6_witness :
    mapLookup ([] : List (String × ToyB)) "k" = none
    ∧ (Get toyCodec ⟨[], "p", []⟩ "k" false
        = (.error .notFound, ⟨[], "p", []⟩, false)
      ∧ GetRaw (⟨[], "p", []⟩ : DB ToyB) "k" = (.error .notFound, ⟨[], "p", []⟩)) :=
  ⟨rfl, claim6_not_found toyCodec ⟨[], "p", []⟩ "k" false rfl⟩

/-! ### Claim C7 -/

/-- Claim C7: deleting the same key twice produces no error either time (an
absent key is a silent no-op), and `Get` on that key returns not-found after
the first and after the second `Delete`.  Stated under the conditions the
claim presupposes: the disk write succeeds and the stored payloads are valid,
so that an auto-sync cannot inject an unrelated failure. -/
theorem claim7_delete_idempotent (C : Codec V B) (db : DB B) (k : String)
    (dest : V) (fs : FS B) (hw : fs.writeOk = true) (hv : mapValid C db.data) :
    (Delete C db k fs).1 = .ok ()
    ∧ (Delete C (Delete C db k fs).2.1 k (Delete C db k fs).2.2).1 = .ok ()
    ∧ Get C (Delete C db k fs).2.1 k dest
        = (.error .notFound, (Delete C db k fs).2.1, dest)
    ∧ Get C (Delete C (Delete C db k fs).2.1 k (Delete C db k fs).2.2).2.1 k dest
        = (.error .notFound,
           (Delete C (Delete C db k fs).2.1 k (Delete C db k fs).2.2).2.1,
           dest) := by
  have hv1 : mapValid C (mapErase db.data k) := mapValid_erase C hv
  have hw1 : ((Delete C db k fs).2.2).writeOk = true := by
    have hx := syncIfNeeded_writeOk C { db with data := mapErase db.data k } fs
    rw [hw] at hx
    exact hx
  refine ⟨?_, ?_, ?_, ?_⟩
  · exact syncIfNeeded_ok C _ fs hw hv1
  · exact syncIfNeeded_ok C _ _ hw1 (mapValid_erase C hv1)
  · have hl : mapLookup ((Delete C db k fs).2.1).data k = none :=
      mapLookup_erase_self db.data k
    simp only [Get, hl]
  · have hl : mapLookup
        ((Delete C (Delete C db k fs).2.1 k (Delete C db k fs).2.2).2.1).data k
        = none := mapLookup_erase_self (mapErase db.data k) k
    simp only [Get, hl]

/-- Concrete instantiation of claim C7, with auto-sync enabled. -/
theorem claim7_witness :
    ((⟨some [Tok.emp], true⟩ : FS ToyB)).writeOk = true
    ∧ mapValid toyCodec
        ((⟨[OptSync], "p", [("k", [Tok.t])]⟩ : DB ToyB)).data
    ∧ (Delete toyCodec ⟨[OptSync], "p", [("k", [Tok.t])]⟩ "k"
        ⟨some [Tok.emp], true⟩).1 = .ok () := by
  refine ⟨rfl, ?_, ?_⟩
  · intro p hp
    rcases List.mem_singleton.mp hp with rfl
    rfl
  · exact (claim7_delete_idempotent toyCodec ⟨[OptSync], "p", [("k", [Tok.t])]⟩
      "k" false ⟨some [Tok.emp], true⟩ rfl
      (fun p hp => by rcases List.mem_singleton.mp hp with rfl; rfl)).1

/-! ### Claim C2 -/

/-- Claim C2: open a store, `Set "a" v` (with `v` encodable), `Save`
successfully, then open a fresh store on the same path: `Get "a"` succeeds
and yields `v` — the mapping decoded by `Open` from the file written by
`Save` agrees with the saved mapping. -/
theorem claim2_persistence (C : Codec V B) (path path2 : String)
    (opts opts2 : List DBOpt) (fs fs0 : FS B) (db0 : DB B)
    (v : V) (b : B) (dest : V)
    (hopen : Open C path opts fs = (.ok db0, fs0))
    (henc : C.encode v = some b)
    (hsave : (Save C (Set C db0 "a" v fs0).2.1 (Set C db0 "a" v fs0).2.2).1
      = .ok ()) :
    ∃ db3,
      (Open C path2 opts2
        (Save C (Set C db0 "a" v fs0).2.1 (Set C db0 "a" v fs0).2.2).2.2).1
        = .ok db3
      ∧ Get C db3 "a" dest = (.ok (), db3, v) := by
  have hsv : (sync C (Set C db0 "a" v fs0).2.1 (Set C db0 "a" v fs0).2.2).1
      = .ok () := hsave
  rcases sync_cases C (Set C db0 "a" v fs0).2.1 (Set C db0 "a" v fs0).2.2 with
    ⟨_, h⟩ | ⟨s, hs, _, h⟩ | ⟨_, _, _, h⟩
  · rw [h] at hsv; simp at hsv
  · have hfs2 : (Save C (Set C db0 "a" v fs0).2.1 (Set C db0 "a" v fs0).2.2).2.2
        = { (Set C db0 "a" v fs0).2.2 with file := some s } :=
      congrArg Prod.snd h
    have hbl : C.isBlank s = false := C.serMap_not_blank _ s hs
    obtain ⟨m', hm', hlk⟩ := C.serMap_deserMap _ s hs
    have hla : mapLookup ((Set C db0 "a" v fs0).2.1).data "a" = some b := by
      have hd : ((Set C db0 "a" v fs0).2.1).data = mapInsert db0.data "a" b := by
        rw [Set_eq C db0 "a" v fs0 b henc]
      rw [hd]
      exact mapLookup_insert_self db0.data "a" b
    have hlk2 : mapLookup m' "a" = some (C.compact b) := by
      rw [hlk "a", hla]
      rfl
    have hdec : C.decode (C.compact b) = some v := by
      rw [C.compact_decode, C.encode_decode v b henc]
    refine ⟨⟨opts2, path2, m'⟩, ?_, ?_⟩
    · rw [hfs2]
      exact congrArg Prod.fst
        (Open_notBlank C path2 opts2 s ((Set C db0 "a" v fs0).2.2).writeOk m'
          hbl hm')
    · simp only [Get, hlk2, hdec]
  · rw [h] at hsv; simp at hsv

/-- Concrete instantiation of claim C2: set `"a"`, save, reopen, read back. -/
theorem claim2_witness :
    Open toyCodec "p" [] ⟨none, true⟩
      = (.ok ⟨[], "p", []⟩, ⟨some [Tok.emp], true⟩)
    ∧ toyCodec.encode true = some [Tok.t]
    ∧ (Save toyCodec
        (Set toyCodec ⟨[], "p", []⟩ "a" true ⟨some [Tok.emp], true⟩).2.1
        (Set toyCodec ⟨[], "p", []⟩ "a" true ⟨some [Tok.emp], true⟩).2.2).1
      = .ok ()
    ∧ ∃ db3,
        (Open toyCodec "p" []
          (Save toyCodec
            (Set toyCodec ⟨[], "p", []⟩ "a" true ⟨some [Tok.emp], true⟩).2.1
            (Set toyCodec ⟨[], "p", []⟩ "a" true
              ⟨some [Tok.emp], true⟩).2.2).2.2).1
          = .ok db3
        ∧ Get toyCodec db3 "a" false = (.ok (), db3, true) :=
  ⟨rfl, rfl, rfl,
   claim2_persistence toyCodec "p" "p" [] [] ⟨none, true⟩ ⟨some [Tok.emp], true⟩
     ⟨[], "p", []⟩ true [Tok.t] false rfl rfl rfl⟩

/-! ### Claim C3 -/

/-- One public call on the store, as a relation on (store, filesystem)
states.  `SetRaw` is restricted to codec-valid payloads: this is the
amendment claim C3 needs (the unrestricted code accepts any payload). -/
inductive StepValidRaw (C : Codec V B) :
    DB B × FS B → DB B × FS B → Prop where
  | set (db : DB B) (fs : FS B) (k : String) (v : V) :
      StepValidRaw C (db, fs) ((Set C db k v fs).2.1, (Set C db k v fs).2.2)
  | setRaw (db : DB B) (fs : FS B) (k : String) (raw : B)
      (hv : C.valid raw = true) :
      StepValidRaw C (db, fs)
        ((SetRaw C db k raw fs).2.1, (SetRaw C db k raw fs).2.2)
  | del (db : DB B) (fs : FS B) (k : String) :
      StepValidRaw C (db, fs)
        ((Delete C db k fs).2.1, (Delete C db k fs).2.2)
  | save (db : DB B) (fs : FS B) :
      StepValidRaw C (db, fs) ((Save C db fs).2.1, (Save C db fs).2.2)
  | get (db : DB B) (fs : FS B) (k : String) (dest : V) :
      StepValidRaw C (db, fs) ((Get C db k dest).2.1, fs)
  | getRaw (db : DB B) (fs : FS B) (k : String) :
      StepValidRaw C (db, fs) ((GetRaw db k).2, fs)
  | iter (σ ε : Type) (db : DB B) (fs : FS B)
      (fn : σ → String → B → σ × Option ε) (s : σ) :
      StepValidRaw C (db, fs) ((Iter db fn s).2, fs)

theorem stepValidRaw_mapValid (C : Codec V B) {p q : DB B × FS B}
    (h : StepValidRaw C p q) (hv : mapValid C p.1.data) :
    mapValid C q.1.data := by
  cases h with
  | set db fs k v =>
    cases he : C.encode v with
    | none =>
      have hq : (Set C db k v fs).2.1 = db := by simp [Set, he]
      rw [hq]
      exact hv
    | some b =>
      have hq : (Set C db k v fs).2.1
          = { db with data := mapInsert db.data k b } := by
        rw [Set_eq C db k v fs b he]
      rw [hq]
      exact mapValid_insert C hv (C.encode_valid v b he)
  | setRaw db fs k raw hvr => exact mapValid_insert C hv hvr
  | del db fs k => exact mapValid_erase C hv
  | save db fs => exact hv
  | get db fs k dest => rw [Get_preserves_db]; exact hv
  | getRaw db fs k => rw [GetRaw_preserves_db]; exact hv
  | iter σ ε db fs fn s => exact hv

/-- Claim C3 (amended): starting from any successful `Open`, in every state
reachable by `Set`, `Delete`, `Save`, `Get`, `GetRaw`, `Iter` — and by
`SetRaw` calls whose payload is codec-valid — every stored payload is valid,
serializing the whole mapping succeeds, and `Save` can never fail with the
JSON error.  (The unamended claim is refuted by `claim3_counterexample`.) -/
theorem claim3_invariant (C : Codec V B) (path : String) (opts : List DBOpt)
    (fs : FS B) (db0 : DB B) (fs0 : FS B) (p : DB B × FS B)
    (hopen : Open C path opts fs = (.ok db0, fs0))
    (hreach : Relation.ReflTransGen (StepValidRaw C) (db0, fs0) p) :
    mapValid C p.1.data
    ∧ (C.serMap p.1.data).isSome = true
    ∧ (Save C p.1 p.2).1 ≠ .error .jsonErr := by
  have hv : mapValid C p.1.data := by
    induction hreach with
    | refl => exact Open_ok_mapValid C hopen
    | tail hab hbc ih => exact stepValidRaw_mapValid C hbc ih
  refine ⟨hv, serMap_isSome_of_mapValid C hv, ?_⟩
  intro hcon
  have hc : (sync C p.1 p.2).1 = .error .jsonErr := hcon
  rcases sync_cases C p.1 p.2 with ⟨hn, _⟩ | ⟨s, _, _, h⟩ | ⟨s, _, _, h⟩
  · have hx := serMap_isSome_of_mapValid C hv
    rw [hn] at hx
    simp at hx
  · rw [h] at hc; simp at hc
  · rw [h] at hc; simp at hc

/-- Claim C3, as frozen, is false on the code: a state reachable from `Open`
by one `SetRaw` call can hold a payload that is not valid per the codec, and
then serializing the whole mapping fails, `Save` reports the JSON error, and
the payload is not decodable. -/
theorem claim3_counterexample :
    Open toyCodec "p" [] ⟨none, true⟩
      = (.ok ⟨[], "p", []⟩, ⟨some [Tok.emp], true⟩)
    ∧ SetRaw toyCodec ⟨[], "p", []⟩ "k" [Tok.bad] ⟨some [Tok.emp], true⟩
      = (.ok (), ⟨[], "p", [("k", [Tok.bad])]⟩, ⟨some [Tok.emp], true⟩)
    ∧ toyCodec.serMap [("k", [Tok.bad])] = none
    ∧ (Save toyCodec ⟨[], "p", [("k", [Tok.bad])]⟩ ⟨some [Tok.emp], true⟩).1
      = .error .jsonErr
    ∧ toyCodec.decode [Tok.bad] = none :=
  ⟨rfl, rfl, rfl, rfl, rfl⟩

/-- Concrete instantiation of the amended claim C3 (trivial reachability). -/
theorem claim3_witness :
    mapValid toyCodec ((⟨[], "p", []⟩ : DB ToyB)).data
    ∧ (toyCodec.serMap ((⟨[], "p", []⟩ : DB ToyB)).data).isSome = true
    ∧ (Save toyCodec ⟨[], "p", []⟩ ⟨some [Tok.emp], true⟩).1
      ≠ .error .jsonErr :=
  claim3_invariant toyCodec "p" [] ⟨none, true⟩ ⟨[], "p", []⟩
    ⟨some [Tok.emp], true⟩ (⟨[], "p", []⟩, ⟨some [Tok.emp], true⟩) rfl
    Relation.ReflTransGen.refl

/-! ### Claim C4 -/

theorem syncIfNeeded_fs_not_mem (C : Codec V B) (db : DB B) (fs : FS B)
    (h : OptSync ∉ db.opts) : (syncIfNeeded C db fs).2 = fs :=
  congrArg Prod.snd (syncIfNeeded_not_mem C db fs h)

/-- Claim C4: without the auto-sync option the mutating calls leave the
backing file untouched; with it, each successful mutating call leaves the
file holding the full serialization of the current mapping (the same
full-file overwrite `Save` performs). -/
theorem claim4_autosync_toggle (C : Codec V B) (db : DB B) (k : String)
    (v : V) (raw : B) (fs : FS B) :
    (OptSync ∉ db.opts →
      (Set C db k v fs).2.2 = fs
      ∧ (SetRaw C db k raw fs).2.2 = fs
      ∧ (Delete C db k fs).2.2 = fs)
    ∧ (OptSync ∈ db.opts →
      ((Set C db k v fs).1 = .ok () →
        ∃ s, C.serMap ((Set C db k v fs).2.1).data = some s
          ∧ ((Set C db k v fs).2.2).file = some s)
      ∧ ((SetRaw C db k raw fs).1 = .ok () →
        ∃ s, C.serMap ((SetRaw C db k raw fs).2.1).data = some s
          ∧ ((SetRaw C db k raw fs).2.2).file = some s)
      ∧ ((Delete C db k fs).1 = .ok () →
        ∃ s, C.serMap ((Delete C db k fs).2.1).data = some s
          ∧ ((Delete C db k fs).2.2).file = some s)) := by
  constructor
  · intro h
    refine ⟨?_, ?_, ?_⟩
    · cases he : C.encode v with
      | none => simp [Set, he]
      | some b =>
        rw [Set_eq C db k v fs b he]
        exact syncIfNeeded_fs_not_mem C _ fs h
    · exact syncIfNeeded_fs_not_mem C _ fs h
    · exact syncIfNeeded_fs_not_mem C _ fs h
  · intro h
    refine ⟨?_, ?_, ?_⟩
    · intro hok
      cases he : C.encode v with
      | none => rw [Set] at hok; simp [he] at hok
      | some b =>
        rw [Set_eq C db k v fs b he] at hok ⊢
        exact syncIfNeeded_ok_file C _ fs h hok
    · intro hok
      exact syncIfNeeded_ok_file C _ fs h hok
    · intro hok
      exact syncIfNeeded_ok_file C _ fs h hok

/-- Concrete instantiation of claim C4, both directions. -/
theorem claim4_witness :
    (SetRaw toyCodec ⟨[], "p", []⟩ "k" [Tok.t] ⟨some [Tok.emp], true⟩).2.2
      = ⟨some [Tok.emp], true⟩
    ∧ ∃ s, toyCodec.serMap
        ((SetRaw toyCodec ⟨[OptSync], "p", []⟩ "k" [Tok.t]
          ⟨some [Tok.emp], true⟩).2.1).data = some s
      ∧ ((SetRaw toyCodec ⟨[OptSync], "p", []⟩ "k" [Tok.t]
          ⟨some [Tok.emp], true⟩).2.2).file = some s :=
  ⟨((claim4_autosync_toggle toyCodec ⟨[], "p", []⟩ "k" true [Tok.t]
      ⟨some [Tok.emp], true⟩).1 (by decide)).2.1,
   ((claim4_autosync_toggle toyCodec ⟨[OptSync], "p", []⟩ "k" true [Tok.t]
      ⟨some [Tok.emp], true⟩).2 (by decide)).2.1 rfl⟩

/-! ### Claim C8 -/

/-- Claim C8: `Open` on an absent, zero-length or whitespace-only file
succeeds with an empty mapping, and leaves on disk the old (blank) content
with the empty-object document written after it — a file that decodes to the
empty mapping. -/
theorem claim8_bootstrap (C : Codec V B) (path : String) (opts : List DBOpt)
    (fs : FS B)
    (hblank : fs.file = none ∨ ∃ c, fs.file = some c ∧ C.isBlank c = true)
    (hw : fs.writeOk = true) :
    Open C path opts fs
      = (.ok ⟨opts, path, []⟩,
         ⟨some (C.bappend (fs.file.getD C.emptyContent) C.emptyDoc),
          fs.writeOk⟩)
    ∧ C.deserMap (C.bappend (fs.file.getD C.emptyContent) C.emptyDoc)
      = some [] := by
  have hbl : C.isBlank (fs.file.getD C.emptyContent) = true := by
    rcases hblank with h | ⟨c, hc, hb⟩
    · rw [h]; exact C.isBlank_emptyContent
    · rw [hc]; exact hb
  constructor
  · rcases fs with ⟨file, w⟩
    cases hw
    simp [Open, hbl, C.deserMap_emptyDoc]
  · exact (C.deserMap_blank_append _ _ hbl).trans C.deserMap_emptyDoc

/-- Concrete instantiation of claim C8 on an absent file. -/
theorem claim8_witness :
    Open toyCodec "p" [] ⟨none, true⟩
      = (.ok ⟨[], "p", []⟩, ⟨some [Tok.emp], true⟩)
    ∧ toyCodec.deserMap [Tok.emp] = some [] :=
  claim8_bootstrap toyCodec "p" [] ⟨none, true⟩ (Or.inl rfl) rfl

/-! ### Claim C9 -/

/-- Whether running the visitor over the entries reaches the end with no
error returned. -/
def noStop {σ ε : Type} (fn : σ → String → B → σ × Option ε) :
    σ → List (String × B) → Bool
  | _, [] => true
  | s, (k, v) :: rest =>
    ((fn s k v).2).isNone && noStop fn (fn s k v).1 rest

/-- The visitor state after processing a list of entries (ignoring errors). -/
def runAll {σ ε : Type} (fn : σ → String → B → σ × Option ε)
    (s : σ) (l : List (String × B)) : σ :=
  l.foldl (fun a p => (fn a p.1 p.2).1) s

theorem iterRun_stop {σ ε : Type} (fn : σ → String → B → σ × Option ε) :
    ∀ (pre : List (String × B)) (s : σ) (k : String) (v : B)
      (post : List (String × B)),
      noStop fn s pre = true →
      ((fn (runAll fn s pre) k v).2).isSome = true →
      iterRun fn s (pre ++ (k, v) :: post) = (fn (runAll fn s pre) k v).1 := by
  intro pre
  induction pre with
  | nil =>
    intro s k v post _ hstop
    have hr : runAll fn s [] = s := rfl
    rw [hr] at hstop
    rw [List.nil_append]
    simp only [iterRun]
    cases h2 : (fn s k v).2 with
    | none => rw [h2] at hstop; simp at hstop
    | some e => rfl
  | cons p rest ih =>
    intro s k v post hpre hstop
    rcases p with ⟨pk, pv⟩
    rw [noStop, Bool.and_eq_true] at hpre
    obtain ⟨h1, h2⟩ := hpre
    rw [Option.isNone_iff_eq_none] at h1
    rw [List.cons_append]
    simp only [iterRun]
    rw [h1]
    have hr : runAll fn s ((pk, pv) :: rest) = runAll fn (fn s pk pv).1 rest :=
      rfl
    rw [hr] at hstop ⊢
    exact ih (fn s pk pv).1 k v post h2 hstop

/-- Claim C9: `Iter` visits entries in order and stops at the first visitor
error; the entries after the stopping one never influence the outcome (they
are not visited), the error is not surfaced (only the visitor's own state
escapes, `Iter` returns nothing else), and the mapping is unchanged. -/
theorem claim9_iter_early_stop {σ ε : Type} (db : DB B)
    (fn : σ → String → B → σ × Option ε) (s : σ)
    (pre post : List (String × B)) (k : String) (v : B)
    (hdata : db.data = pre ++ (k, v) :: post)
    (hpre : noStop fn s pre = true)
    (hstop : ((fn (runAll fn s pre) k v).2).isSome = true) :
    Iter db fn s = ((fn (runAll fn s pre) k v).1, db) := by
  rw [Iter, hdata, iterRun_stop fn pre s k v post hpre hstop]

/-- Concrete instantiation of claim C9: a visitor that counts entries and
fails on the second one; the third entry does not influence the result. -/
theorem claim9_witness :
    ((⟨[], "p", [("a", [Tok.t]), ("b", [Tok.t]), ("c", [Tok.t])]⟩ :
        DB ToyB)).data
      = [("a", [Tok.t])] ++ ("b", [Tok.t]) :: [("c", [Tok.t])]
    ∧ Iter (⟨[], "p", [("a", [Tok.t]), ("b", [Tok.t]), ("c", [Tok.t])]⟩ :
        DB ToyB)
        (fun s _ _ => (s + 1, if s ≥ 1 then some () else none)) 0
      = (2, ⟨[], "p", [("a", [Tok.t]), ("b", [Tok.t]), ("c", [Tok.t])]⟩) :=
  ⟨rfl,
   claim9_iter_early_stop
     ⟨[], "p", [("a", [Tok.t]), ("b", [Tok.t]), ("c", [Tok.t])]⟩
     (fun s _ _ => (s + 1, if s ≥ 1 then some () else none)) 0
     [("a", [Tok.t])] [("c", [Tok.t])] "b" [Tok.t] rfl (by decide) (by decide)⟩

/-! ### Claim C10 -/

/-- Claim C10: with auto-sync on and a failing disk, each mutating call
returns the sync error but the in-memory mutation is kept (no rollback), and
the file is left unchanged, so memory and file diverge. -/
theorem claim10_no_rollback (C : Codec V B) (db : DB B) (k : String) (v : V)
    (b raw : B) (fs : FS B)
    (hmem : OptSync ∈ db.opts) (hw : fs.writeOk = false)
    (henc : C.encode v = some b)
    (hs1 : (C.serMap (mapInsert db.data k b)).isSome = true)
    (hs2 : (C.serMap (mapInsert db.data k raw)).isSome = true)
    (hs3 : (C.serMap (mapErase db.data k)).isSome = true) :
    Set C db k v fs
      = (.error .syncErr, { db with data := mapInsert db.data k b }, fs)
    ∧ SetRaw C db k raw fs
      = (.error .syncErr, { db with data := mapInsert db.data k raw }, fs)
    ∧ Delete C db k fs
      = (.error .syncErr, { db with data := mapErase db.data k }, fs) := by
  refine ⟨?_, ?_, ?_⟩
  · rw [Set_eq C db k v fs b henc,
      syncIfNeeded_fail C { db with data := mapInsert db.data k b } fs hmem hw hs1]
  · simp only [SetRaw,
      syncIfNeeded_fail C { db with data := mapInsert db.data k raw } fs hmem hw hs2]
  · simp only [Delete,
      syncIfNeeded_fail C { db with data := mapErase db.data k } fs hmem hw hs3]

/-- Concrete instantiation of claim C10: the entry is stored even though the
call reports the sync error. -/
theorem claim10_witness :
    OptSync ∈ [OptSync]
    ∧ Set toyCodec ⟨[OptSync], "p", []⟩ "k" true ⟨some [Tok.emp], false⟩
      = (.error .syncErr, ⟨[OptSync], "p", [("k", [Tok.t])]⟩,
         ⟨some [Tok.emp], false⟩) :=
  ⟨List.mem_singleton.mpr rfl,
   (claim10_no_rollback toyCodec ⟨[OptSync], "p", []⟩ "k" true [Tok.t] [Tok.f]
     ⟨some [Tok.emp], false⟩ (List.mem_singleton.mpr rfl) rfl rfl rfl rfl rfl).1⟩

end Jsondb
